import Mathlib

/-!
Verification of the xilian-platform streaming-aggregation and signal-processing
cores (`data-aggregator/src/lib.rs` and `signal-processor/src/lib.rs`).

Modelling conventions:
* `f64` sample values are idealised as exact rationals (`ℚ`); decimal literals
  of the source become the corresponding rationals.
* The `f64` infinity sentinels used by the accumulator's `min`/`max` fields are
  modelled by the extended-rational type `F` below.
* `f64::sqrt` has no exact rational counterpart, so every function whose source
  calls `sqrt` takes an explicit `sq : ℚ → ℚ` parameter standing for it; none
  of the verified properties depend on its value.
* Rust panics (index out of bounds, integer division by zero, `usize`
  underflow) are modelled by an `Option` layer: `none` means the call panics.
* Signed 64-bit integers are modelled by `ℤ`; Rust `i64` division truncates
  toward zero, which is `Int.tdiv` guarded against a zero divisor.
-/

/-- Extended rationals: a finite value, `+∞`, or `-∞`.  Models the `f64`
values reachable in the accumulator's `min`/`max` fields (no NaN inputs). -/
inductive F where
  | fin (q : ℚ)
  | pinf
  | ninf
deriving DecidableEq, Repr

/-- Model of `f64::min` on non-NaN values. -/
def F.fmin : F → F → F
  | .pinf, b => b
  | a, .pinf => a
  | .ninf, _ => .ninf
  | _, .ninf => .ninf
  | .fin a, .fin b => .fin (Min.min a b)

/-- Model of `f64::max` on non-NaN values. -/
def F.fmax : F → F → F
  | .ninf, b => b
  | a, .ninf => a
  | .pinf, _ => .pinf
  | _, .pinf => .pinf
  | .fin a, .fin b => .fin (Max.max a b)

/-- Welford online accumulator state (`WelfordAccumulator` in the source). -/
structure WelfordAccumulator where
  count : Nat
  mean : ℚ
  m2 : ℚ
  min : F
  max : F
  sum : ℚ
  first : Option ℚ
  last : Option ℚ
deriving DecidableEq, Repr

/-- `WelfordAccumulator::new`. -/
def WelfordAccumulator.new : WelfordAccumulator :=
  { count := 0, mean := 0, m2 := 0, min := F.pinf, max := F.ninf,
    sum := 0, first := none, last := none }

/-- `WelfordAccumulator::add`. -/
def WelfordAccumulator.add (a : WelfordAccumulator) (value : ℚ) : WelfordAccumulator :=
  let count := a.count + 1
  let delta := value - a.mean
  let mean := a.mean + delta / (count : ℚ)
  let delta2 := value - mean
  { count := count
    mean := mean
    m2 := a.m2 + delta * delta2
    min := F.fmin a.min (F.fin value)
    max := F.fmax a.max (F.fin value)
    sum := a.sum + value
    first := if a.first.isNone then some value else a.first
    last := some value }

/-- `WelfordAccumulator::remove`. -/
def WelfordAccumulator.remove (a : WelfordAccumulator) (value : ℚ) : WelfordAccumulator :=
  if a.count = 0 then a
  else
    let count := a.count - 1
    let sum := a.sum - value
    if count = 0 then
      { a with count := count, sum := sum, mean := 0, m2 := 0, min := F.pinf, max := F.ninf }
    else
      let delta := value - a.mean
      let mean := a.mean - delta / (count : ℚ)
      let delta2 := value - mean
      { a with count := count, sum := sum, mean := mean, m2 := a.m2 - delta * delta2 }

/-- `WelfordAccumulator::merge`. -/
def WelfordAccumulator.merge (a other : WelfordAccumulator) : WelfordAccumulator :=
  if other.count = 0 then a
  else
    let combined_count := a.count + other.count
    let delta := other.mean - a.mean
    { count := combined_count
      mean := ((a.count : ℚ) * a.mean + (other.count : ℚ) * other.mean) / (combined_count : ℚ)
      m2 := a.m2 + other.m2 +
        delta * delta * ((a.count : ℚ) * (other.count : ℚ)) / (combined_count : ℚ)
      min := F.fmin a.min other.min
      max := F.fmax a.max other.max
      sum := a.sum + other.sum
      first := if a.first.isNone then other.first else a.first
      last := match other.last with
        | some v => some v
        | none => a.last }

/-- `AggregateResult`; the `percentiles` map is always created empty by
`get_result`, so it is modelled as an association list. -/
structure AggregateResult where
  window_start : ℤ
  window_end : ℤ
  count : Nat
  sum : ℚ
  mean : ℚ
  min : F
  max : F
  variance : ℚ
  std_dev : ℚ
  first : Option ℚ
  last : Option ℚ
  percentiles : List (Nat × ℚ)
deriving DecidableEq, Repr

/-- `WelfordAccumulator::get_result`; `sq` models `f64::sqrt`. -/
def WelfordAccumulator.get_result (sq : ℚ → ℚ) (a : WelfordAccumulator) : AggregateResult :=
  let variance := if 1 < a.count then a.m2 / ((a.count - 1 : Nat) : ℚ) else 0
  { window_start := 0
    window_end := 0
    count := a.count
    sum := a.sum
    mean := a.mean
    min := if a.min = F.pinf then F.fin 0 else a.min
    max := if a.max = F.ninf then F.fin 0 else a.max
    variance := variance
    std_dev := sq variance
    first := a.first
    last := a.last
    percentiles := [] }

/-- One mutating call on a `WelfordAccumulator`; the accumulator passed to
`merge` is arbitrary. -/
inductive AccOp where
  | addv (v : ℚ)
  | removev (v : ℚ)
  | mergev (other : WelfordAccumulator)

/-- Apply one accumulator operation. -/
def AccOp.apply (a : WelfordAccumulator) : AccOp → WelfordAccumulator
  | .addv v => a.add v
  | .removev v => a.remove v
  | .mergev o => a.merge o

/-- State of a fresh accumulator after a sequence of calls. -/
def runAccOps (ops : List AccOp) : WelfordAccumulator :=
  ops.foldl AccOp.apply WelfordAccumulator.new

/-- Key reachability invariant: an accumulator with `count = 0` has its
extrema at the infinity sentinels. -/
def WelfordAccumulator.EmptyInv (a : WelfordAccumulator) : Prop :=
  a.count = 0 → a.min = F.pinf ∧ a.max = F.ninf

theorem welford_empty_inv_step (a : WelfordAccumulator) (op : AccOp)
    (h : a.EmptyInv) : (op.apply a).EmptyInv := by
  cases op with
  | addv v =>
      intro hc
      simp [AccOp.apply, WelfordAccumulator.add] at hc
  | removev v =>
      intro hc
      unfold AccOp.apply WelfordAccumulator.remove at hc ⊢
      by_cases h0 : a.count = 0
      · simpa [h0] using h h0
      · by_cases h1 : a.count - 1 = 0
        · simp [h0, h1]
        · simp [h0, h1] at hc
  | mergev o =>
      intro hc
      unfold AccOp.apply WelfordAccumulator.merge at hc ⊢
      by_cases h0 : o.count = 0
      · simp [h0] at hc ⊢
        exact h hc
      · simp [h0] at hc

theorem welford_empty_inv_run (ops : List AccOp) : (runAccOps ops).EmptyInv := by
  have key : ∀ (l : List AccOp) (a : WelfordAccumulator), a.EmptyInv →
      (l.foldl AccOp.apply a).EmptyInv := by
    intro l
    induction l with
    | nil => intro a ha; exact ha
    | cons op rest ih =>
        intro a ha
        exact ih _ (welford_empty_inv_step a op ha)
  refine key ops WelfordAccumulator.new ?_
  intro _
  exact ⟨rfl, rfl⟩

/-- C8: for every accumulator state reachable by any sequence of `add`,
`remove`, and `merge` calls, whenever `count = 0` the `AggregateResult`
returned by `get_result` reports `min = 0.0` and `max = 0.0`, never an
infinity. -/
theorem C8_get_result_zero_extrema (ops : List AccOp) (sq : ℚ → ℚ)
    (hc : (runAccOps ops).count = 0) :
    ((runAccOps ops).get_result sq).min = F.fin 0 ∧
      ((runAccOps ops).get_result sq).max = F.fin 0 := by
  obtain ⟨hmin, hmax⟩ := welford_empty_inv_run ops hc
  constructor
  · simp [WelfordAccumulator.get_result, hmin]
  · simp [WelfordAccumulator.get_result, hmax, hmin]

/-- Witness for C8 at the concrete call sequence `add 1; remove 1`. -/
theorem C8_get_result_zero_extrema_witness :
    (runAccOps [AccOp.addv 1, AccOp.removev 1]).count = 0 ∧
      ((runAccOps [AccOp.addv 1, AccOp.removev 1]).get_result (fun q => q)).min = F.fin 0 ∧
      ((runAccOps [AccOp.addv 1, AccOp.removev 1]).get_result (fun q => q)).max = F.fin 0 :=
  ⟨by decide, C8_get_result_zero_extrema [AccOp.addv 1, AccOp.removev 1] (fun q => q) (by decide)⟩

/-- C3 fails on the code: after `add 1.0` then `remove 1.0` the count returns
to 0 but `first` is still `Some(1.0)`, not the neutral `None` the claim
demands (`last` likewise). -/
theorem C3_remove_counterexample :
    ((WelfordAccumulator.new.add 1).remove 1).count = 0 ∧
      ((WelfordAccumulator.new.add 1).remove 1).first ≠ none ∧
      ((WelfordAccumulator.new.add 1).remove 1).last ≠ none := by
  decide

/-- C3 amended: `remove(x)` with `n = 0` changes nothing; and whenever
`remove(x)` brings `n` from 1 to 0, `mean` and `m2` are reset to 0 and
`min`/`max` to `+∞`/`-∞`, while `first` and `last` keep their previous
values (and `sum` is decremented by `x`). -/
theorem C3_remove_amended (a : WelfordAccumulator) (x : ℚ) :
    (a.count = 0 → a.remove x = a) ∧
      (a.count = 1 → a.remove x =
        { a with count := 0, sum := a.sum - x, mean := 0, m2 := 0,
                 min := F.pinf, max := F.ninf }) := by
  constructor
  · intro h0
    simp [WelfordAccumulator.remove, h0]
  · intro h1
    simp [WelfordAccumulator.remove, h1]

/-- Witness for C3 amended at the accumulator holding exactly the value 2. -/
theorem C3_remove_amended_witness :
    (WelfordAccumulator.new.add 2).count = 1 ∧
      (WelfordAccumulator.new.add 2).remove 2 =
        { (WelfordAccumulator.new.add 2) with
          count := 0, sum := (WelfordAccumulator.new.add 2).sum - 2, mean := 0, m2 := 0,
          min := F.pinf, max := F.ninf } :=
  ⟨by decide, (C3_remove_amended (WelfordAccumulator.new.add 2) 2).2 (by decide)⟩

/-- C10: merging an accumulator whose count is 0 is a complete no-op: the
receiver is returned unchanged in every field. -/
theorem C10_merge_empty_noop (a other : WelfordAccumulator)
    (h : other.count = 0) : a.merge other = a := by
  simp [WelfordAccumulator.merge, h]

/-- Witness for C10: merging a fresh (count 0) accumulator into a non-trivial
one changes nothing. -/
theorem C10_merge_empty_noop_witness :
    WelfordAccumulator.new.count = 0 ∧
      ((WelfordAccumulator.new.add 3).add 7).merge WelfordAccumulator.new =
        (WelfordAccumulator.new.add 3).add 7 :=
  ⟨rfl, C10_merge_empty_noop ((WelfordAccumulator.new.add 3).add 7) WelfordAccumulator.new rfl⟩

/-- Window kind (`WindowType` in the aggregator source). -/
inductive WindowType where
  | Tumbling
  | Sliding
  | Session
deriving DecidableEq, Repr

/-- `WindowConfig`. -/
structure WindowConfig where
  window_type : WindowType
  window_size_ms : ℤ
  slide_size_ms : Option ℤ
  session_gap_ms : Option ℤ
  max_window_count : Nat
deriving DecidableEq, Repr

/-- `WindowConfig::tumbling`. -/
def WindowConfig.tumbling (window_size_ms : ℤ) : WindowConfig :=
  { window_type := .Tumbling, window_size_ms := window_size_ms,
    slide_size_ms := none, session_gap_ms := none, max_window_count := 1000 }

/-- `WindowConfig::sliding`. -/
def WindowConfig.sliding (window_size_ms slide_size_ms : ℤ) : WindowConfig :=
  { window_type := .Sliding, window_size_ms := window_size_ms,
    slide_size_ms := some slide_size_ms, session_gap_ms := none, max_window_count := 1000 }

/-- `WindowConfig::session`. -/
def WindowConfig.session (session_gap_ms : ℤ) : WindowConfig :=
  { window_type := .Session, window_size_ms := 0,
    slide_size_ms := none, session_gap_ms := some session_gap_ms, max_window_count := 1000 }

/-- Per-window state (`WindowState`). -/
structure WindowState where
  accumulator : WelfordAccumulator
  values : List (ℤ × ℚ)
  start_time : ℤ
  end_time : ℤ
deriving DecidableEq, Repr

/-- `TimeWindowAggregator`; the `BTreeMap<i64, WindowState>` is modelled as an
association list kept sorted by key ascending. -/
structure TimeWindowAggregator where
  config : WindowConfig
  windows : List (ℤ × WindowState)
  current_window_start : ℤ
deriving DecidableEq, Repr

/-- `TimeWindowAggregator::new`. -/
def TimeWindowAggregator.new (config : WindowConfig) : TimeWindowAggregator :=
  { config := config, windows := [], current_window_start := 0 }

/-- Rust `i64` division (truncation toward zero); `none` models the panic on a
zero divisor. -/
def divT (a b : ℤ) : Option ℤ :=
  if b = 0 then none else some (Int.tdiv a b)

/-- `BTreeMap::entry(k).or_insert_with(d)` followed by a mutation `f` of the
entry, on the sorted association list. -/
def assocUpdate (k : ℤ) (d : WindowState) (f : WindowState → WindowState) :
    List (ℤ × WindowState) → List (ℤ × WindowState)
  | [] => [(k, f d)]
  | (k', w) :: rest =>
      if k = k' then (k', f w) :: rest
      else if k < k' then (k, f d) :: (k', w) :: rest
      else (k', w) :: assocUpdate k d f rest

/-- `TimeWindowAggregator::get_window_start`; `none` models the division-by-zero
panic of the `Tumbling`/`Sliding` arms. -/
def TimeWindowAggregator.get_window_start (agg : TimeWindowAggregator) (timestamp : ℤ) :
    Option ℤ :=
  match agg.config.window_type with
  | .Tumbling =>
      (divT timestamp agg.config.window_size_ms).map (fun q => q * agg.config.window_size_ms)
  | .Sliding =>
      let slide := agg.config.slide_size_ms.getD agg.config.window_size_ms
      (divT timestamp slide).map (fun q => q * slide)
  | .Session => some agg.current_window_start

/-- `TimeWindowAggregator::add_value` (including the inlined
`cleanup_old_windows`); `none` models a panic. -/
def TimeWindowAggregator.add_value (agg : TimeWindowAggregator) (timestamp : ℤ) (value : ℚ) :
    Option TimeWindowAggregator :=
  (agg.get_window_start timestamp).map fun window_start =>
    let cws := if agg.current_window_start = 0 then window_start else agg.current_window_start
    let dflt : WindowState :=
      { accumulator := WelfordAccumulator.new, values := [],
        start_time := window_start, end_time := window_start + agg.config.window_size_ms }
    let windows := assocUpdate window_start dflt
      (fun w => { w with accumulator := w.accumulator.add value,
                         values := w.values ++ [(timestamp, value)] })
      agg.windows
    let max_age := agg.config.window_size_ms * (agg.config.max_window_count : ℤ)
    let cutoff := timestamp - max_age
    { agg with windows := windows.filter (fun kw => decide (cutoff ≤ kw.1)),
               current_window_start := cws }

/-- C2 fails on the code: with a Session configuration (gap 1000 ms), the very
first `add_value(5000, 1.0)` does not open a session window at start 5000 with
its end advanced to 5000.  `get_window_start` ignores `session_gap_ms` and
returns the stored `current_window_start` (still 0), the window is created
with `start = 0, end = 0 + window_size_ms = 0`, and the eviction sweep
(cutoff `5000 - 0·1000 = 5000`) immediately discards it: the aggregator ends
the call with no windows at all and `current_window_start` still 0. -/
theorem C2_session_bug :
    (TimeWindowAggregator.new (WindowConfig.session 1000)).get_window_start 5000 = some 0 ∧
      (TimeWindowAggregator.new (WindowConfig.session 1000)).add_value 5000 1 =
        some { config := WindowConfig.session 1000, windows := [],
               current_window_start := 0 } := by
  constructor
  · rfl
  · rfl

/-- C6 fails on the code: `add_value` on a Tumbling configuration with
`window_size_ms = 0` panics (integer division by zero in
`get_window_start`) instead of reporting an `InvalidWindowConfig` error — and
`add_value` has no error channel at all. -/
theorem C6_tumbling_zero_size_panics :
    (TimeWindowAggregator.new (WindowConfig.tumbling 0)).add_value 100 1 = none := by
  rfl

/-- `StreamAggregator` state. -/
structure StreamAggregator where
  window_size_ms : ℤ
  slide_size_ms : ℤ
  buffer : List (ℤ × ℚ)
  accumulator : WelfordAccumulator
  last_emit_time : ℤ
deriving DecidableEq, Repr

/-- `StreamAggregator::new`. -/
def StreamAggregator.new (window_size_ms slide_size_ms : ℤ) : StreamAggregator :=
  { window_size_ms := window_size_ms, slide_size_ms := slide_size_ms,
    buffer := [], accumulator := WelfordAccumulator.new, last_emit_time := 0 }

/-- Front-eviction loop of `StreamAggregator::process`: pop buffered samples
older than the cutoff, retracting each from the accumulator. -/
def evictFront (cutoff : ℤ) :
    List (ℤ × ℚ) → WelfordAccumulator → List (ℤ × ℚ) × WelfordAccumulator
  | [], acc => ([], acc)
  | (ts, v) :: rest, acc =>
      if ts < cutoff then evictFront cutoff rest (acc.remove v)
      else ((ts, v) :: rest, acc)

/-- `StreamAggregator::process`; `sq` models `f64::sqrt` inside
`get_result`. -/
def StreamAggregator.process (sq : ℚ → ℚ) (sa : StreamAggregator)
    (timestamp : ℤ) (value : ℚ) : StreamAggregator × Option AggregateResult :=
  let buffer0 := sa.buffer ++ [(timestamp, value)]
  let acc0 := sa.accumulator.add value
  let cutoff := timestamp - sa.window_size_ms
  let ba := evictFront cutoff buffer0 acc0
  let last := if sa.last_emit_time = 0 then timestamp else sa.last_emit_time
  if sa.slide_size_ms ≤ timestamp - last then
    let r := ba.2.get_result sq
    ({ sa with buffer := ba.1, accumulator := ba.2, last_emit_time := timestamp },
     some { r with window_start := cutoff, window_end := timestamp })
  else
    ({ sa with buffer := ba.1, accumulator := ba.2, last_emit_time := last }, none)

/-- C7: with `slide_ms > 0`, a call made while `last_emit_ms = 0` (in
particular the first call ever) returns no result; a call made with
`last_emit_ms ≠ 0` returns a result exactly when `ts − last_emit_ms ≥
slide_ms`, in which case `last_emit_ms` becomes `ts` and the result is
stamped with `window_start = ts − size_ms`, `window_end = ts`. -/
theorem C7_stream_process_emit (sq : ℚ → ℚ) (sa : StreamAggregator)
    (timestamp : ℤ) (value : ℚ) (hslide : 0 < sa.slide_size_ms) :
    (sa.last_emit_time = 0 → (sa.process sq timestamp value).2 = none) ∧
      (sa.last_emit_time ≠ 0 →
        (((sa.process sq timestamp value).2 ≠ none) ↔
            sa.slide_size_ms ≤ timestamp - sa.last_emit_time) ∧
          (sa.slide_size_ms ≤ timestamp - sa.last_emit_time →
            (sa.process sq timestamp value).1.last_emit_time = timestamp ∧
              ∃ r, (sa.process sq timestamp value).2 = some r ∧
                r.window_start = timestamp - sa.window_size_ms ∧
                r.window_end = timestamp) ∧
          (¬ sa.slide_size_ms ≤ timestamp - sa.last_emit_time →
            (sa.process sq timestamp value).2 = none ∧
              (sa.process sq timestamp value).1.last_emit_time = sa.last_emit_time)) := by
  constructor
  · intro h0
    unfold StreamAggregator.process
    simp only [h0, if_true, sub_self, if_pos rfl]
    rw [if_neg]
    omega
  · intro hne
    unfold StreamAggregator.process
    simp only [if_neg hne]
    by_cases hcond : sa.slide_size_ms ≤ timestamp - sa.last_emit_time
    · simp [hcond]
    · simp [hcond]

/-- Witness for C7: aggregator with size 10 ms, slide 5 ms.  A first call at
`ts = 3` does not emit; from a state with `last_emit_ms = 3`, a call at
`ts = 9` emits a result stamped `[-1, 9]`. -/
theorem C7_stream_process_emit_witness :
    (0 : ℤ) < 5 ∧
      ((StreamAggregator.new 10 5).process (fun q => q) 3 1).2 = none ∧
      (((StreamAggregator.new 10 5).process (fun q => q) 3 1).1.process
          (fun q => q) 9 2).2 ≠ none := by
  refine ⟨by norm_num, ?_, ?_⟩
  · exact (C7_stream_process_emit (fun q => q) (StreamAggregator.new 10 5) 3 1
      (by decide)).1 rfl
  · have h := (C7_stream_process_emit (fun q => q)
      (((StreamAggregator.new 10 5).process (fun q => q) 3 1).1) 9 2 (by decide)).2
      (by decide)
    exact h.1.mpr (by decide)

/-- `TDigest` state. -/
structure TDigest where
  centroids : List (ℚ × ℚ)
  max_centroids : Nat
  total_weight : ℚ
deriving DecidableEq, Repr

/-- `TDigest::new`. -/
def TDigest.new (max_centroids : Nat) : TDigest :=
  { centroids := [], max_centroids := max_centroids, total_weight := 0 }

/-- Sorting of centroids by mean ascending (`sort_by` with `partial_cmp`;
inputs are NaN-free, and insertion sort is stable like Rust's sort). -/
def sortByMean (l : List (ℚ × ℚ)) : List (ℚ × ℚ) :=
  l.insertionSort (fun a b => a.1 ≤ b.1)

/-- Greedy coalescing scan of `TDigest::compress`. -/
def compressLoop (bound : ℚ) : ℚ → ℚ → List (ℚ × ℚ) → List (ℚ × ℚ)
  | current_mean, current_weight, [] => [(current_mean, current_weight)]
  | current_mean, current_weight, (mean, weight) :: rest =>
      let combined_weight := current_weight + weight
      if combined_weight ≤ bound then
        compressLoop bound ((current_mean * current_weight + mean * weight) / combined_weight)
          combined_weight rest
      else
        (current_mean, current_weight) :: compressLoop bound mean weight rest

/-- `TDigest::compress`. -/
def TDigest.compress (d : TDigest) : TDigest :=
  match sortByMean d.centroids with
  | [] => d
  | c :: rest =>
      { d with centroids :=
          compressLoop (d.total_weight / (d.max_centroids : ℚ)) c.1 c.2 rest }

/-- `TDigest::add`. -/
def TDigest.add (d : TDigest) (value weight : ℚ) : TDigest :=
  let d' : TDigest :=
    { d with centroids := d.centroids ++ [(value, weight)],
             total_weight := d.total_weight + weight }
  if d'.max_centroids * 2 < d'.centroids.length then d'.compress else d'

/-- CDF walk of `TDigest::percentile`: return the mean of the first centroid
at which the cumulative weight reaches the target, `none` if the list is
exhausted first. -/
def percLoop (target : ℚ) : ℚ → List (ℚ × ℚ) → Option ℚ
  | _, [] => none
  | cum, (mean, weight) :: rest =>
      let cum' := cum + weight
      if target ≤ cum' then some mean else percLoop target cum' rest

/-- `TDigest::percentile`. -/
def TDigest.percentile (d : TDigest) (p : ℚ) : ℚ :=
  match d.centroids with
  | [] => 0
  | _ =>
      let target_weight := d.total_weight * p / 100
      match percLoop target_weight 0 d.centroids with
      | some m => m
      | none => ((d.centroids.getLast?).map Prod.fst).getD 0

/-- `TDigest::merge`. -/
def TDigest.merge (d other : TDigest) : TDigest :=
  other.centroids.foldl (fun acc c => acc.add c.1 c.2) d

/-- C4 fails on the code: the percentile walk follows the centroid buffer in
insertion order, so with the uncompressed digest built by `add(10,1); add(5,1)`
the 40th percentile (10) exceeds the 90th percentile (5). -/
theorem C4_percentile_counterexample :
    (40 : ℚ) ≤ 90 ∧
      (((TDigest.new 10).add 10 1).add 5 1).percentile 90 <
        (((TDigest.new 10).add 10 1).add 5 1).percentile 40 := by
  constructor
  · norm_num
  · norm_num [TDigest.new, TDigest.add, TDigest.percentile, percLoop]

theorem percLoop_mem (t : ℚ) :
    ∀ (l : List (ℚ × ℚ)) (c m : ℚ), percLoop t c l = some m → ∃ x ∈ l, x.1 = m := by
  intro l
  induction l with
  | nil => intro c m h; simp [percLoop] at h
  | cons a rest ih =>
      intro c m h
      unfold percLoop at h
      by_cases hcond : t ≤ c + a.2
      · simp [hcond] at h
        exact ⟨a, List.mem_cons_self a rest, h⟩
      · simp [hcond] at h
        obtain ⟨x, hx, hxm⟩ := ih (c + a.2) m h
        exact ⟨x, List.mem_cons_of_mem a hx, hxm⟩

theorem mem_fst_le_getLast (l : List (ℚ × ℚ))
    (hs : List.Pairwise (fun a b : ℚ × ℚ => a.1 ≤ b.1) l) :
    ∀ x ∈ l, ∀ g, l.getLast? = some g → x.1 ≤ g.1 := by
  induction l with
  | nil => intro x hx; simp at hx
  | cons a rest ih =>
      intro x hx g hg
      rcases rest with _ | ⟨b, rest'⟩
      · simp at hx hg
        simp [hx, ← hg]
      · rw [List.getLast?_cons_cons] at hg
        rcases List.mem_cons.mp hx with hxa | hxr
        · have hgmem : g ∈ b :: rest' := List.mem_of_mem_getLast? hg
          subst hxa
          exact (List.pairwise_cons.mp hs).1 g hgmem
        · exact ih (List.pairwise_cons.mp hs).2 x hxr g hg

theorem percLoop_some_mono (t1 t2 : ℚ) (ht : t1 ≤ t2) :
    ∀ (l : List (ℚ × ℚ)), List.Pairwise (fun a b : ℚ × ℚ => a.1 ≤ b.1) l →
      ∀ (c m1 m2 : ℚ), percLoop t1 c l = some m1 → percLoop t2 c l = some m2 → m1 ≤ m2 := by
  intro l
  induction l with
  | nil => intro _ c m1 m2 h1; simp [percLoop] at h1
  | cons a rest ih =>
      intro hs c m1 m2 h1 h2
      unfold percLoop at h1 h2
      by_cases hc2 : t2 ≤ c + a.2
      · have hc1 : t1 ≤ c + a.2 := le_trans ht hc2
        simp [hc1] at h1
        simp [hc2] at h2
        simp [← h1, ← h2]
      · simp [hc2] at h2
        by_cases hc1 : t1 ≤ c + a.2
        · simp [hc1] at h1
          obtain ⟨x, hx, hxm⟩ := percLoop_mem t2 rest (c + a.2) m2 h2
          have hax := (List.pairwise_cons.mp hs).1 x hx
          rw [← h1, ← hxm]
          exact hax
        · simp [hc1] at h1
          exact ih (List.pairwise_cons.mp hs).2 (c + a.2) m1 m2 h1 h2

theorem percLoop_none_mono (t1 t2 : ℚ) (ht : t1 ≤ t2) :
    ∀ (l : List (ℚ × ℚ)) (c : ℚ), percLoop t1 c l = none → percLoop t2 c l = none := by
  intro l
  induction l with
  | nil => intro c _; simp [percLoop]
  | cons a rest ih =>
      intro c h1
      unfold percLoop at h1 ⊢
      by_cases hc1 : t1 ≤ c + a.2
      · simp [hc1] at h1
      · have hc2 : ¬ t2 ≤ c + a.2 := fun h => hc1 (le_trans ht h)
        simp [hc1] at h1
        simp [hc2]
        exact ih (c + a.2) h1

theorem percentile_eq_getD (d : TDigest) (c0 : ℚ × ℚ) (rest : List (ℚ × ℚ))
    (hc : d.centroids = c0 :: rest) (p : ℚ) :
    d.percentile p = (percLoop (d.total_weight * p / 100) 0 d.centroids).getD
      (((d.centroids.getLast?).map Prod.fst).getD 0) := by
  unfold TDigest.percentile
  rw [hc]
  rcases hl : percLoop (d.total_weight * p / 100) 0 (c0 :: rest) with _ | m <;> simp [hl]

/-- C4 amended: the percentile walk is monotone once the centroid list is in
its compressed (sorted-by-mean) form: for every `TDigest` state whose
centroids are sorted by mean ascending and whose total weight is nonnegative,
`p₁ ≤ p₂` implies `percentile(p₁) ≤ percentile(p₂)`.  (The claim as stated is
refuted above because `add` leaves the buffer unsorted between
compressions.) -/
theorem C4_percentile_mono_amended (d : TDigest)
    (hs : List.Pairwise (fun a b : ℚ × ℚ => a.1 ≤ b.1) d.centroids)
    (hw : 0 ≤ d.total_weight) (p1 p2 : ℚ) (hp : p1 ≤ p2) :
    d.percentile p1 ≤ d.percentile p2 := by
  rcases hc : d.centroids with _ | ⟨c0, rest⟩
  · unfold TDigest.percentile
    rw [hc]
  · have ht : d.total_weight * p1 / 100 ≤ d.total_weight * p2 / 100 :=
      (div_le_div_iff_of_pos_right (by norm_num : (0:ℚ) < 100)).mpr
        (mul_le_mul_of_nonneg_left hp hw)
    rw [hc] at hs
    rw [percentile_eq_getD d c0 rest hc p1, percentile_eq_getD d c0 rest hc p2, hc]
    rcases h1 : percLoop (d.total_weight * p1 / 100) 0 (c0 :: rest) with _ | m1 <;>
      rcases h2 : percLoop (d.total_weight * p2 / 100) 0 (c0 :: rest) with _ | m2
    · simp
    · rw [percLoop_none_mono _ _ ht _ _ h1] at h2
      exact absurd h2 (by simp)
    · obtain ⟨x, hx, hxm⟩ := percLoop_mem _ _ _ _ h1
      obtain ⟨g, hg⟩ : ∃ g, (c0 :: rest).getLast? = some g :=
        ⟨(c0 :: rest).getLast (by simp), List.getLast?_eq_getLast _ (by simp)⟩
      rw [hg]
      simp only [Option.getD_some, Option.map_some', Option.getD_none]
      rw [← hxm]
      exact mem_fst_le_getLast (c0 :: rest) hs x hx g hg
    · simp only [Option.getD_some]
      exact percLoop_some_mono _ _ ht (c0 :: rest) hs 0 m1 m2 h1 h2

/-- Two-centroid digest already in compressed (sorted) form, used as the
monotonicity witness. -/
def sortedTwoCentroidDigest : TDigest :=
  { centroids := [(1, 1), (2, 1)]
    max_centroids := 10
    total_weight := 2 }

/-- Witness for C4 amended: a sorted two-centroid digest, percentiles 30 and
80. -/
theorem C4_percentile_mono_amended_witness :
    List.Pairwise (fun a b : ℚ × ℚ => a.1 ≤ b.1) sortedTwoCentroidDigest.centroids ∧
      (0 : ℚ) ≤ sortedTwoCentroidDigest.total_weight ∧
      (30 : ℚ) ≤ 80 ∧
      sortedTwoCentroidDigest.percentile 30 ≤ sortedTwoCentroidDigest.percentile 80 :=
  ⟨by decide, by decide, by norm_num,
    C4_percentile_mono_amended sortedTwoCentroidDigest (by decide) (by decide) 30 80
      (by norm_num)⟩

/-- Signal-processing error type (`SignalError`); the formatted message
payloads of the source are not modelled, the `InsufficientLength` fields
are. -/
inductive SignalError where
  | InsufficientLength (required actual : Nat)
  | InvalidSampleRate (rate : ℚ)
  | InvalidFilterParams
  | FftError
  | NumericalError
deriving DecidableEq, Repr

/-- `FilterType`. -/
inductive FilterType where
  | LowPass (cutoff : ℚ)
  | HighPass (cutoff : ℚ)
  | BandPass (low high : ℚ)
  | BandStop (low high : ℚ)
  | MovingAverage (window_size : Nat)
  | ExponentialMovingAverage (alpha : ℚ)
  | Median (window_size : Nat)
deriving DecidableEq, Repr

/-- `SignalProcessor` configuration. -/
structure SignalProcessor where
  sample_rate : ℚ
  fft_size : Nat
deriving DecidableEq, Repr

/-- `SignalProcessor::new`. -/
def SignalProcessor.new (sample_rate : ℚ) : Except SignalError SignalProcessor :=
  if sample_rate ≤ 0 then .error (.InvalidSampleRate sample_rate)
  else .ok { sample_rate := sample_rate, fft_size := 1024 }

/-- Exact rational value of the `f64` constant `std::f64::consts::PI`
(`0x400921FB54442D18`, i.e. `884279719003555 · 2⁻⁴⁸`). -/
def pi64 : ℚ := 884279719003555 / 281474976710656

/-- Sort of a rational block (`sort_by` with `partial_cmp`, NaN-free inputs;
insertion sort is stable like Rust's sort). -/
def sortQ (l : List ℚ) : List ℚ := l.insertionSort (fun a b => a ≤ b)

theorem sortQ_sorted (l : List ℚ) : (sortQ l).Sorted (fun a b => a ≤ b) :=
  List.sorted_insertionSort _ l

theorem sortQ_perm (l : List ℚ) : (sortQ l).Perm l :=
  List.perm_insertionSort _ l

theorem sortQ_length (l : List ℚ) : (sortQ l).length = l.length :=
  (sortQ_perm l).length_eq

/-- `SignalProcessor::moving_average`; the running-sum loop is a fold over
the index range. -/
def SignalProcessor.moving_average (self : SignalProcessor) (signal : List ℚ)
    (window_size : Nat) : Except SignalError (List ℚ) :=
  if signal.length < window_size then
    .error (.InsufficientLength window_size signal.length)
  else
    let init : ℚ := (signal.take window_size).foldl (fun a b => a + b) 0
    let out := (List.range signal.length).foldl
      (fun (st : ℚ × List ℚ) i =>
        let sum := if window_size ≤ i then
            st.1 - signal.getD (i - window_size) 0 + signal.getD i 0
          else st.1
        (sum, st.2 ++ [sum / (window_size : ℚ)]))
      (init, [])
    .ok out.2

/-- Recurrence of `SignalProcessor::exponential_moving_average`. -/
def emaLoop (alpha : ℚ) : ℚ → List ℚ → List ℚ
  | _, [] => []
  | ema, v :: rest =>
      let e := alpha * v + (1 - alpha) * ema
      e :: emaLoop alpha e rest

/-- `SignalProcessor::exponential_moving_average`; `none` models the panic of
`signal[0]` on the empty signal (reached only after the `alpha` check). -/
def SignalProcessor.exponential_moving_average (self : SignalProcessor) (signal : List ℚ)
    (alpha : ℚ) : Option (Except SignalError (List ℚ)) :=
  if alpha ≤ 0 ∨ 1 < alpha then some (.error .InvalidFilterParams)
  else
    match signal with
    | [] => none
    | x0 :: _ => some (.ok (emaLoop alpha x0 signal))

/-- `SignalProcessor::median_filter`. -/
def SignalProcessor.median_filter (self : SignalProcessor) (signal : List ℚ)
    (window_size : Nat) : Except SignalError (List ℚ) :=
  if signal.length < window_size then
    .error (.InsufficientLength window_size signal.length)
  else
    let half_window := window_size / 2
    .ok ((List.range signal.length).map fun i =>
      let start := i - half_window
      let stop := Nat.min (i + half_window + 1) signal.length
      let w := sortQ ((signal.drop start).take (stop - start))
      w.getD (w.length / 2) 0)

/-- One in-place pass of the first-order low-pass recurrence over
`signal[1..]`, seeded with the running output value. -/
def lowpassScan (alpha : ℚ) : ℚ → List ℚ → List ℚ
  | _, [] => []
  | yprev, v :: rest =>
      let y := alpha * v + (1 - alpha) * yprev
      y :: lowpassScan alpha y rest

/-- `SignalProcessor::butterworth_lowpass`; each of the `order` passes
rewrites `result[1..]` in place from `result[0] = signal[0]`, so a pass
depends on the previous result only through its head.  `none` models the
panic of `result[0] = signal[0]` on the empty signal. -/
def SignalProcessor.butterworth_lowpass (self : SignalProcessor) (signal : List ℚ)
    (cutoff : ℚ) (order : Nat) : Option (Except SignalError (List ℚ)) :=
  let normalized_cutoff := cutoff / (self.sample_rate / 2)
  if normalized_cutoff ≤ 0 ∨ 1 ≤ normalized_cutoff then some (.error .InvalidFilterParams)
  else
    let rc := 1 / (2 * pi64 * cutoff)
    let dt := 1 / self.sample_rate
    let alpha := dt / (rc + dt)
    match signal with
    | [] => none
    | x0 :: rest =>
        let init := x0 :: List.replicate rest.length 0
        let pass := fun (r : List ℚ) => r.headD 0 :: lowpassScan alpha (r.headD 0) rest
        some (.ok (pass^[order] init))

/-- `SignalProcessor::butterworth_highpass`. -/
def SignalProcessor.butterworth_highpass (self : SignalProcessor) (signal : List ℚ)
    (cutoff : ℚ) (order : Nat) : Option (Except SignalError (List ℚ)) :=
  match self.butterworth_lowpass signal cutoff order with
  | none => none
  | some (.error e) => some (.error e)
  | some (.ok lowpass) => some (.ok (List.zipWith (fun s l => s - l) signal lowpass))

/-- `SignalProcessor::butterworth_bandpass`. -/
def SignalProcessor.butterworth_bandpass (self : SignalProcessor) (signal : List ℚ)
    (low high : ℚ) (order : Nat) : Option (Except SignalError (List ℚ)) :=
  match self.butterworth_highpass signal low order with
  | none => none
  | some (.error e) => some (.error e)
  | some (.ok highpassed) => self.butterworth_lowpass highpassed high order

/-- `SignalProcessor::butterworth_bandstop`. -/
def SignalProcessor.butterworth_bandstop (self : SignalProcessor) (signal : List ℚ)
    (low high : ℚ) (order : Nat) : Option (Except SignalError (List ℚ)) :=
  match self.butterworth_lowpass signal low order with
  | none => none
  | some (.error e) => some (.error e)
  | some (.ok lowpassed) =>
      match self.butterworth_highpass signal high order with
      | none => none
      | some (.error e) => some (.error e)
      | some (.ok highpassed) =>
          some (.ok (List.zipWith (fun l h => l + h) lowpassed highpassed))

/-- `SignalProcessor::apply_filter`; all IIR filters are applied with
`order = 4` as in the source. -/
def SignalProcessor.apply_filter (self : SignalProcessor) (signal : List ℚ)
    (filter_type : FilterType) : Option (Except SignalError (List ℚ)) :=
  match filter_type with
  | .MovingAverage window_size => some (self.moving_average signal window_size)
  | .ExponentialMovingAverage alpha => self.exponential_moving_average signal alpha
  | .Median window_size => some (self.median_filter signal window_size)
  | .LowPass cutoff => self.butterworth_lowpass signal cutoff 4
  | .HighPass cutoff => self.butterworth_highpass signal cutoff 4
  | .BandPass low high => self.butterworth_bandpass signal low high 4
  | .BandStop low high => self.butterworth_bandstop signal low high 4

/-- C9: `apply_filter` with `ExponentialMovingAverage` and a valid
`alpha ∈ (0, 1]` on the empty signal panics (out-of-bounds read of
`signal[0]`) instead of returning a value or a typed error. -/
theorem C9_ema_empty_panics (proc : SignalProcessor) (alpha : ℚ)
    (h1 : 0 < alpha) (h2 : alpha ≤ 1) :
    proc.apply_filter [] (.ExponentialMovingAverage alpha) = none := by
  have hcond : ¬ (alpha ≤ 0 ∨ 1 < alpha) := by
    push_neg
    exact ⟨h1, h2⟩
  simp [SignalProcessor.apply_filter, SignalProcessor.exponential_moving_average, hcond]

/-- Witness for C9 at `alpha = 1/2` and a 1 kHz processor. -/
theorem C9_ema_empty_panics_witness :
    (0 : ℚ) < 1/2 ∧ (1/2 : ℚ) ≤ 1 ∧
      (SignalProcessor.mk 1000 1024).apply_filter []
          (.ExponentialMovingAverage (1/2)) = none :=
  ⟨by norm_num, by norm_num,
    C9_ema_empty_panics (SignalProcessor.mk 1000 1024) (1/2) (by norm_num) (by norm_num)⟩

/-- `StatisticsResult`. -/
structure StatisticsResult where
  count : Nat
  mean : ℚ
  variance : ℚ
  std_dev : ℚ
  min : ℚ
  max : ℚ
  range : ℚ
  median : ℚ
  q1 : ℚ
  q3 : ℚ
  iqr : ℚ
  skewness : ℚ
  kurtosis : ℚ
  rms : ℚ
  peak_to_peak : ℚ
  crest_factor : ℚ
deriving DecidableEq, Repr

/-- `SignalProcessor::calculate_statistics`; `sq` models `f64::sqrt`.  The
`f64::INFINITY`-seeded min/max folds are written as head-seeded folds, which
agree on the non-empty block this branch guarantees. -/
def SignalProcessor.calculate_statistics (self : SignalProcessor) (sq : ℚ → ℚ)
    (signal : List ℚ) : Except SignalError StatisticsResult :=
  if signal.isEmpty then .error (.InsufficientLength 1 0)
  else
    let n : ℚ := signal.length
    let mean := (signal.foldl (fun a b => a + b) 0) / n
    let variance := (signal.foldl (fun a x => a + (x - mean)^2) 0) / n
    let std_dev := sq variance
    let mn := signal.foldl Min.min (signal.headD 0)
    let mx := signal.foldl Max.max (signal.headD 0)
    let range := mx - mn
    let sorted := sortQ signal
    let median :=
      if sorted.length % 2 = 0 then
        (sorted.getD (sorted.length / 2 - 1) 0 + sorted.getD (sorted.length / 2) 0) / 2
      else
        sorted.getD (sorted.length / 2) 0
    let q1_idx := sorted.length / 4
    let q3_idx := 3 * sorted.length / 4
    let q1 := sorted.getD q1_idx 0
    let q3 := sorted.getD q3_idx 0
    let iqr := q3 - q1
    let skewness := (signal.foldl (fun a x => a + ((x - mean) / std_dev)^3) 0) / n
    let kurtosis := (signal.foldl (fun a x => a + ((x - mean) / std_dev)^4) 0) / n - 3
    let rms := sq ((signal.foldl (fun a x => a + x^2) 0) / n)
    let peak_to_peak := mx - mn
    let crest_factor := if 0 < rms then (Max.max |mx| |mn|) / rms else 0
    .ok { count := signal.length
          mean := mean
          variance := variance
          std_dev := std_dev
          min := mn
          max := mx
          range := range
          median := median
          q1 := q1
          q3 := q3
          iqr := iqr
          skewness := skewness
          kurtosis := kurtosis
          rms := rms
          peak_to_peak := peak_to_peak
          crest_factor := crest_factor }

/-- `AnomalyResult`; the `details` string of the source always formats
exactly two numbers (`mean`/`std`, the two bounds, or `median`/`mad`), so it
is modelled as that pair. -/
structure AnomalyResult where
  is_anomaly : Bool
  score : ℚ
  threshold : ℚ
  method : String
  details : Option (ℚ × ℚ)
deriving DecidableEq, Repr

/-- Fallback statistics substituted by `detect_anomaly_zscore` when
`calculate_statistics` fails (note `std_dev = 1.0`, `iqr = 0.0`). -/
def zscoreFallbackStats : StatisticsResult :=
  { count := 0, mean := 0, variance := 1, std_dev := 1, min := 0, max := 0
    range := 0, median := 0, q1 := 0, q3 := 0, iqr := 0, skewness := 0
    kurtosis := 0, rms := 0, peak_to_peak := 0, crest_factor := 0 }

/-- Fallback statistics substituted by `detect_anomaly_iqr` and
`detect_anomaly_mad` when `calculate_statistics` fails (note
`std_dev = 1.0` and `iqr = 1.0`). -/
def iqrFallbackStats : StatisticsResult :=
  { count := 0, mean := 0, variance := 1, std_dev := 1, min := 0, max := 0
    range := 0, median := 0, q1 := 0, q3 := 0, iqr := 1, skewness := 0
    kurtosis := 0, rms := 0, peak_to_peak := 0, crest_factor := 0 }

/-- `SignalProcessor::detect_anomaly_zscore`. -/
def SignalProcessor.detect_anomaly_zscore (self : SignalProcessor) (sq : ℚ → ℚ)
    (value : ℚ) (history : List ℚ) (threshold : ℚ) : AnomalyResult :=
  let stats := match self.calculate_statistics sq history with
    | .ok s => s
    | .error _ => zscoreFallbackStats
  let z_score := if 0 < stats.std_dev then |value - stats.mean| / stats.std_dev else 0
  { is_anomaly := decide (threshold < z_score)
    score := z_score
    threshold := threshold
    method := "Z-Score"
    details := some (stats.mean, stats.std_dev) }

/-- `SignalProcessor::detect_anomaly_iqr`. -/
def SignalProcessor.detect_anomaly_iqr (self : SignalProcessor) (sq : ℚ → ℚ)
    (value : ℚ) (history : List ℚ) (k : ℚ) : AnomalyResult :=
  let stats := match self.calculate_statistics sq history with
    | .ok s => s
    | .error _ => iqrFallbackStats
  let lower_bound := stats.q1 - k * stats.iqr
  let upper_bound := stats.q3 + k * stats.iqr
  let is_anomaly := value < lower_bound ∨ upper_bound < value
  let score := if 0 < stats.iqr then
      if value < stats.median then (stats.q1 - value) / stats.iqr
      else (value - stats.q3) / stats.iqr
    else 0
  { is_anomaly := decide is_anomaly
    score := Max.max score 0
    threshold := k
    method := "IQR"
    details := some (lower_bound, upper_bound) }

/-- `SignalProcessor::detect_anomaly_mad`; the decimal literal `1.4826` is
the rational `14826/10000`.  `none` models the panic: on an empty history the
even-length branch computes the index `0/2 - 1`, which underflows `usize`. -/
def SignalProcessor.detect_anomaly_mad (self : SignalProcessor) (sq : ℚ → ℚ)
    (value : ℚ) (history : List ℚ) (threshold : ℚ) : Option AnomalyResult :=
  let stats := match self.calculate_statistics sq history with
    | .ok s => s
    | .error _ => iqrFallbackStats
  let abs_deviations := sortQ (history.map (fun x => |x - stats.median|))
  if abs_deviations.length = 0 then none
  else
    let mad :=
      if abs_deviations.length % 2 = 0 then
        (abs_deviations.getD (abs_deviations.length / 2 - 1) 0 +
          abs_deviations.getD (abs_deviations.length / 2) 0) / 2
      else
        abs_deviations.getD (abs_deviations.length / 2) 0
    let mad_corrected := mad * (14826 / 10000)
    let score := if 0 < mad_corrected then |value - stats.median| / mad_corrected else 0
    some { is_anomaly := decide (threshold < score)
           score := score
           threshold := threshold
           method := "MAD"
           details := some (stats.median, mad) }

/-- C1 fails on the code: on the empty history (the only input on which the
statistics computation fails) `detect_anomaly_zscore(5.0, [], 2.0)` scores
`|5 − 0|/1 = 5` against the fallback statistics and flags an anomaly, instead
of the claimed score 0 and `is_anomaly = false`. -/
theorem C1_zscore_empty_counterexample :
    ((SignalProcessor.mk 1000 1024).detect_anomaly_zscore (fun q => q) 5 [] 2).score = 5 ∧
      ((SignalProcessor.mk 1000 1024).detect_anomaly_zscore (fun q => q) 5 [] 2).is_anomaly
        = true := by
  constructor <;>
    norm_num [SignalProcessor.detect_anomaly_zscore, SignalProcessor.calculate_statistics,
      zscoreFallbackStats]

/-- C1 amended: when the statistics computation fails (the empty history),
the detectors do not return the benign score 0 / not-anomaly result.
Z-Score and IQR substitute fallback statistics (`mean 0`, `std_dev 1`,
`median = q1 = q3 = 0`, `iqr 1`), so both score `|v|`, Z-Score flags an
anomaly iff `|v| > threshold` and IQR iff `v ∉ [−k, k]`; MAD panics on the
empty history. -/
theorem C1_empty_history_amended (self : SignalProcessor) (sq : ℚ → ℚ) (v thr k : ℚ) :
    (self.detect_anomaly_zscore sq v [] thr).score = |v| ∧
      (self.detect_anomaly_zscore sq v [] thr).is_anomaly = decide (thr < |v|) ∧
      (self.detect_anomaly_iqr sq v [] k).score = |v| ∧
      (self.detect_anomaly_iqr sq v [] k).is_anomaly = decide (v < -k ∨ k < v) ∧
      self.detect_anomaly_mad sq v [] thr = none := by
  refine ⟨?_, ?_, ?_, ?_, ?_⟩
  · simp [SignalProcessor.detect_anomaly_zscore, SignalProcessor.calculate_statistics,
      zscoreFallbackStats]
  · simp [SignalProcessor.detect_anomaly_zscore, SignalProcessor.calculate_statistics,
      zscoreFallbackStats]
  · rcases le_or_lt 0 v with hv | hv
    · simp [SignalProcessor.detect_anomaly_iqr, SignalProcessor.calculate_statistics,
        iqrFallbackStats, not_lt.mpr hv, abs_of_nonneg hv, hv]
    · simp [SignalProcessor.detect_anomaly_iqr, SignalProcessor.calculate_statistics,
        iqrFallbackStats, hv, abs_of_neg hv, le_of_lt hv]
  · simp [SignalProcessor.detect_anomaly_iqr, SignalProcessor.calculate_statistics,
      iqrFallbackStats]
  · simp [SignalProcessor.detect_anomaly_mad, SignalProcessor.calculate_statistics,
      iqrFallbackStats, sortQ]

/-- C5 fails on the code: for the even-length block `[1.0, 2.0]` the code
returns the AVERAGE of the two middle elements, `1.5`, not the lower middle
element `1.0` the claim demands. -/
theorem C5_median_counterexample :
    ((SignalProcessor.mk 1000 1024).calculate_statistics (fun q => q) [1, 2]).toOption.map
        StatisticsResult.median = some (3/2) ∧
      ((SignalProcessor.mk 1000 1024).calculate_statistics (fun q => q) [1, 2]).toOption.map
        StatisticsResult.median ≠ some 1 := by
  have h : ((SignalProcessor.mk 1000 1024).calculate_statistics (fun q => q) [1, 2]).toOption.map
      StatisticsResult.median = some (3/2) := by
    norm_num [SignalProcessor.calculate_statistics, sortQ, Except.toOption,
      List.insertionSort, List.orderedInsert]
  refine ⟨h, ?_⟩
  rw [h]
  norm_num

/-- C5 amended: for every non-empty sample block, `calculate_statistics`
returns `median` equal to the middle element of the sorted block when the
length is odd, and to the average of the two middle elements when the length
is even. -/
theorem C5_median_amended (self : SignalProcessor) (sq : ℚ → ℚ)
    (signal s : List ℚ) (hne : signal ≠ []) (hperm : s.Perm signal)
    (hsort : s.Sorted (fun a b => a ≤ b)) :
    (self.calculate_statistics sq signal).toOption.map StatisticsResult.median =
      some (if signal.length % 2 = 0 then
          (s.getD (signal.length / 2 - 1) 0 + s.getD (signal.length / 2) 0) / 2
        else s.getD (signal.length / 2) 0) := by
  have hs_eq : s = sortQ signal :=
    List.eq_of_perm_of_sorted (hperm.trans (sortQ_perm signal).symm) hsort
      (sortQ_sorted signal)
  subst hs_eq
  unfold SignalProcessor.calculate_statistics
  rw [if_neg (by simpa using hne)]
  simp only [Except.toOption, Option.map_some']
  rw [sortQ_length]

/-- Witness for C5 amended at the block `[3, 1, 2]`, whose sorted form is
`[1, 2, 3]` and whose median is 2. -/
theorem C5_median_amended_witness :
    ([3, 1, 2] : List ℚ) ≠ [] ∧
      ([1, 2, 3] : List ℚ).Perm [3, 1, 2] ∧
      ([1, 2, 3] : List ℚ).Sorted (fun a b => a ≤ b) ∧
      ((SignalProcessor.mk 1000 1024).calculate_statistics (fun q => q) [3, 1, 2]).toOption.map
          StatisticsResult.median =
        some (if ([3, 1, 2] : List ℚ).length % 2 = 0 then
            (([1, 2, 3] : List ℚ).getD (([3, 1, 2] : List ℚ).length / 2 - 1) 0 +
              ([1, 2, 3] : List ℚ).getD (([3, 1, 2] : List ℚ).length / 2) 0) / 2
          else ([1, 2, 3] : List ℚ).getD (([3, 1, 2] : List ℚ).length / 2) 0) :=
  ⟨by decide, by decide, by decide,
    C5_median_amended (SignalProcessor.mk 1000 1024) (fun q => q) [3, 1, 2] [1, 2, 3]
      (by decide) (by decide) (by decide)⟩
